import Mathlib

/-!
# Verification of the `observability` scanner and meter model

A shallow embedding, in Lean 4, of the Go package `observability`
(`scanner.go`, `meter.go`).  Bytes are modelled as `Nat`, byte slices as
`List Nat`, `uint64` arithmetic as `Nat` arithmetic reduced modulo `2 ^ 64`
exactly where the Go code can overflow, and `time.Time` values as `Nat`
(the meter code only stores and copies times, never computes with them).

Side effects are made explicit:

* the per-line callbacks of `BufferScanner.Scan` are modelled
  observationally: instead of invoking `lineFunc.f`, the model returns, for
  every registered name in order, `some (lineIndex, fields.drop 1)` when the
  callback would have been invoked for the line with that index, and `none`
  when the input was exhausted before a match was found;
* `scalarMeter` mutation is modelled by state passing: every method returns
  the updated meter record;
* `bufio.Scanner` (standard library, configured by `Scan` with the
  `ScanLines` split function and `Buffer(lineBuf, cap(lineBuf))`) is
  modelled by `readLines`, which yields the sequence of line tokens
  produced before either end of input (`Bool` result `false`) or
  `bufio.ErrTooLong` (`Bool` result `true`, when a line does not fit in the
  configured capacity).  The error flag is returned so that theorems can
  talk about it; the Go `Scan` never inspects `scanner.Err()`, which the
  model mirrors by discarding the flag.
-/

/-- The `asciiSpace` table of `scanner.go`: a byte is whitespace exactly
when it is tab, newline, vertical tab, form feed, carriage return or
space. -/
def isAsciiSpace (c : Nat) : Bool :=
  c == 9 || c == 10 || c == 11 || c == 12 || c == 13 || c == 32

/-- `naiveAtoi` from `scanner.go`: `rv *= 10; rv += uint64(c - '0')` over
the bytes of `b`, with `uint64` overflow (`% 2 ^ 64`) and the byte
subtraction `c - '0'` wrapping modulo 256 (`(c + 208) % 256 = (c - 48) % 256`
for a byte `c`). -/
def naiveAtoi (b : List Nat) : Nat :=
  b.foldl (fun rv c => (rv * 10 % 2 ^ 64 + (c + 208) % 256) % 2 ^ 64) 0

/-- Modelled from the spec: the value a standard validating unsigned
decimal parser assigns to a digit string (no overflow, exact `Nat`
arithmetic). -/
def decimalValue (b : List Nat) : Nat :=
  b.foldl (fun a c => a * 10 + (c - 48)) 0

/-- The Go slice expression `s[a:b]` (for `a ≤ b ≤ s.length`). -/
def extractSpan (s : List Nat) (a b : Nat) : List Nat :=
  (s.take b).drop a

/-- The space-skipping loops of `asciiByteFields`
(`for i < len(s) && asciiSpace[s[i]] != 0 { i++ }`): the first index at or
after `i` holding a non-whitespace byte (or the length of `s`). -/
def skipSpaces (s : List Nat) (i : Nat) : Nat :=
  i + ((s.drop i).takeWhile isAsciiSpace).length

/-- The main loop of `asciiByteFields` (`scanner.go`): `fieldStart` is the
start of the field being scanned, `i` the cursor, `a` the accumulator.  A
whitespace byte at the cursor ends the current field `s[fieldStart:i]`; the
trailing partial field is appended when the input ends with `fieldStart`
strictly inside it. -/
def abfLoop (s : List Nat) (fieldStart i : Nat) (a : List (List Nat)) :
    List (List Nat) :=
  if h : i < s.length then
    if isAsciiSpace s[i] = false then
      abfLoop s fieldStart (i + 1) a
    else
      abfLoop s (skipSpaces s (i + 1)) (skipSpaces s (i + 1))
        (a ++ [extractSpan s fieldStart i])
  else
    if fieldStart < s.length then a ++ [extractSpan s fieldStart s.length]
    else a
termination_by s.length - i
decreasing_by
  · omega
  · simp [skipSpaces]; omega

/-- `asciiByteFields` from `scanner.go`: skip leading whitespace, then run
the field loop. -/
def asciiByteFields (s : List Nat) (a : List (List Nat)) : List (List Nat) :=
  abfLoop s (skipSpaces s 0) (skipSpaces s 0) a

/-- `BufferScanner.Fields`: `asciiByteFields(line, bs.fields[0:0])` — the
scratch container is truncated to length zero before refilling, so the
accumulator is empty. -/
def Fields (line : List Nat) : List (List Nat) :=
  asciiByteFields line []

/-- Modelled from the spec: `AsciiFieldSplitter` returns "the ordered
sequence of maximal non-whitespace sub-spans, in left-to-right order", with
all runs of ASCII whitespace removed and no empty fields. -/
def specFields (s : List Nat) : List (List Nat) :=
  match s with
  | [] => []
  | c :: t =>
    if isAsciiSpace c then specFields t
    else (c :: t.takeWhile (fun b => !isAsciiSpace b)) ::
      specFields (t.dropWhile (fun b => !isAsciiSpace b))
termination_by s.length
decreasing_by
  · simp
  · simp only [List.length_cons]
    exact Nat.lt_succ_of_le (List.dropWhile_sublist _).length_le

/-- `dropCR` of `bufio.ScanLines`: a trailing carriage return is removed
from a line token. -/
def dropCR (l : List Nat) : List Nat :=
  match l.getLast? with
  | some 13 => l.dropLast
  | _ => l

/-- Model of `bufio.Scanner` as configured by `BufferScanner.Scan`
(`ScanLines` split function over a `bytes.Reader`, buffer and maximum token
size both equal to `cap(lineBuf)`).  `cur` is the data buffered for the
current line.  A line token is produced when a newline is found within the
first `max` buffered bytes, or at end of input when the remainder is
shorter than `max` (the scanner only learns about EOF on the read after the
buffer-full check, so a final line of length exactly `max` still fails).
Otherwise the buffer fills without a token and the scanner stops with
`bufio.ErrTooLong`; the `Bool` component records that error. -/
def readLines (max : Nat) (cur : List Nat) : List Nat → List (List Nat) × Bool
  | [] =>
    if cur = [] then ([], false)
    else if cur.length < max then ([dropCR cur], false)
    else ([], true)
  | c :: rest =>
    if c = 10 then
      if cur.length < max then
        let r := readLines max [] rest
        (dropCR cur :: r.1, r.2)
      else ([], true)
    else readLines max (cur ++ [c]) rest

/-- The inner loop of `BufferScanner.Scan` for one registration: read
successive lines; a line whose fields number at least two and whose first
field equals `name` fires the callback (`some` of the absolute index of the
matched line and `fields[1:]`, together with the unconsumed lines);
otherwise the line is consumed and skipped.  `pos` is the absolute index of
the first line of `lines` in the scanned input. -/
def findMatch (name : List Nat) :
    List (List Nat) → Nat → Option (Nat × List (List Nat) × List (List Nat))
  | [], _ => none
  | l :: rest, pos =>
    match Fields l with
    | f0 :: f1 :: fs =>
      if name = f0 then some (pos, f1 :: fs, rest)
      else findMatch name rest (pos + 1)
    | _ => findMatch name rest (pos + 1)

/-- The outer loop of `BufferScanner.Scan`: registrations are processed in
order against a single advancing line cursor.  Each registration yields
`some (matchedLineIndex, fields.drop 1)` if its callback fires, `none` if
the lines ran out first (in which case the scanner stays exhausted for all
later registrations, modelled by recursing with no lines left). -/
def scanFrom : List (List Nat) → List (List Nat) → Nat →
    List (Option (Nat × List (List Nat)))
  | [], _, _ => []
  | name :: ns, lines, pos =>
    match findMatch name lines pos with
    | some (k, args, rest) => some (k, args) :: scanFrom ns rest (k + 1)
    | none => none :: scanFrom ns [] pos

/-- `BufferScanner.Scan`: split the buffer into line tokens with the
`bufio` scanner (capacity `lineBufCap = cap(bs.lineBuf)`), then run the
ordered registrations (given by their names) over them.  The Go function
returns nothing and never checks `scanner.Err()`; accordingly the model
discards the `ErrTooLong` flag of `readLines` and only reports which
callbacks fired. -/
def Scan (lineBufCap : Nat) (lineFuncNames : List (List Nat)) (b : List Nat) :
    List (Option (Nat × List (List Nat))) :=
  scanFrom lineFuncNames (readLines lineBufCap [] b).1 0

/-- `MeterDescription` from `meter.go` (the captured call stack
`describedAt` is diagnostic-only runtime introspection and carries no
behavior; it is omitted). -/
structure MeterDescription where
  name : String
  explanation : String
  cumulative : Bool

/-- The two `setFunc` values that occur in `meter.go`, defunctionalized. -/
inductive setFuncKind where
  | counter
  | gauge
deriving DecidableEq

/-- `scalarMeter` from `meter.go`: value `v`, sample time `t`, reset time
`r`, and the discipline-selecting set function `f`. -/
structure scalarMeter where
  md : MeterDescription
  v : Nat
  t : Nat
  r : Nat
  f : setFuncKind

/-- `scalarMeter.Value`: returns `(m.t, m.v)`. -/
def scalarMeter.Value (m : scalarMeter) : Nat × Nat :=
  (m.t, m.v)

/-- `scalarMeter.ResetAt`: `m.t = t; m.r = t; m.v = 0`. -/
def scalarMeter.ResetAt (m : scalarMeter) (t : Nat) : scalarMeter :=
  { m with t := t, r := t, v := 0 }

/-- `counterSet` from `meter.go`: "sets the reset time on a counter if it
overflows" — if the incoming sample is numerically below the stored value,
call `ResetAt`. -/
def counterSet (m : scalarMeter) (t v : Nat) : scalarMeter :=
  if v < (scalarMeter.Value m).2 then scalarMeter.ResetAt m t else m

/-- `gaugeSet` from `meter.go`: does nothing. -/
def gaugeSet (m : scalarMeter) (_t _v : Nat) : scalarMeter :=
  m

/-- Dispatch of the stored `setFunc` field. -/
def applySetFunc : setFuncKind → scalarMeter → Nat → Nat → scalarMeter
  | .counter => counterSet
  | .gauge => gaugeSet

/-- `scalarMeter.SampleAt`: run the discipline's set function, then store
`m.t = t; m.v = v` unconditionally. -/
def scalarMeter.SampleAt (m : scalarMeter) (t v : Nat) : scalarMeter :=
  { applySetFunc m.f m t v with t := t, v := v }

/-- `DefineCounter` from `meter.go`: zero value and times, reset time
initialized to the current time (`time.Now()` is passed explicitly as
`now`), counter discipline. -/
def DefineCounter (md : MeterDescription) (now : Nat) : scalarMeter :=
  { md := md, v := 0, t := 0, r := now, f := .counter }

/-- `Origin` from `meter.go`: an empty struct. -/
structure Origin where

/-- `Origin.RegisterFunction` from `meter.go`: the body is empty.  The
registered function is modelled as a state transformer `f : α → α` and the
mutable world reachable from the call as the meter list `ms`; the call
returns the world unchanged. -/
def Origin.RegisterFunction {α : Type} (_o : Origin) (_f : α → α)
    (ms : List scalarMeter) : List scalarMeter :=
  ms

/-- A concrete meter description used by concrete test instances. -/
def mdTest : MeterDescription :=
  { name := "m", explanation := "e", cumulative := true }

/-- A concrete gauge meter used by concrete test instances. -/
def gaugeTest : scalarMeter :=
  { md := mdTest, v := 100, t := 1, r := 7, f := .gauge }

/-! ## Support lemmas -/

theorem drop_length_takeWhile {α : Type} (p : α → Bool) :
    ∀ l : List α, l.drop (l.takeWhile p).length = l.dropWhile p
  | [] => rfl
  | c :: t => by
    by_cases h : p c
    · simp only [List.takeWhile_cons_of_pos h, List.dropWhile_cons_of_pos h,
        List.length_cons, List.drop_succ_cons]
      exact drop_length_takeWhile p t
    · simp [List.takeWhile_cons_of_neg h, List.dropWhile_cons_of_neg h]

theorem takeWhile_dropWhile_nil {α : Type} (p : α → Bool) :
    ∀ l : List α, (l.dropWhile p).takeWhile p = []
  | [] => rfl
  | c :: t => by
    by_cases h : p c
    · simp only [List.dropWhile_cons_of_pos h]
      exact takeWhile_dropWhile_nil p t
    · simp [List.dropWhile_cons_of_neg h, List.takeWhile_cons_of_neg h]

theorem drop_skipSpaces (s : List Nat) (i : Nat) :
    s.drop (skipSpaces s i) = (s.drop i).dropWhile isAsciiSpace := by
  rw [skipSpaces, ← List.drop_drop, drop_length_takeWhile]

theorem skipSpaces_le_length (s : List Nat) (i : Nat) (h : i ≤ s.length) :
    skipSpaces s i ≤ s.length := by
  have h1 : ((s.drop i).takeWhile isAsciiSpace).length ≤ (s.drop i).length :=
    (List.takeWhile_sublist _).length_le
  rw [List.length_drop] at h1
  rw [skipSpaces]
  omega

theorem specFields_cons_space {c : Nat} {t : List Nat}
    (h : isAsciiSpace c = true) : specFields (c :: t) = specFields t := by
  rw [specFields]
  simp [h]

theorem specFields_cons_nonspace {c : Nat} {t : List Nat}
    (h : isAsciiSpace c = false) :
    specFields (c :: t) =
      ((c :: t).takeWhile (fun b => !isAsciiSpace b)) ::
        specFields ((c :: t).dropWhile (fun b => !isAsciiSpace b)) := by
  rw [@List.takeWhile_cons_of_pos Nat (fun b => !isAsciiSpace b) c t (by simp [h]),
    @List.dropWhile_cons_of_pos Nat (fun b => !isAsciiSpace b) c t (by simp [h]),
    specFields]
  simp [h]

theorem specFields_dropWhile :
    ∀ l : List Nat, specFields (l.dropWhile isAsciiSpace) = specFields l
  | [] => rfl
  | c :: t => by
    by_cases h : isAsciiSpace c
    · rw [List.dropWhile_cons_of_pos h, specFields_dropWhile t,
        specFields_cons_space h]
    · rw [List.dropWhile_cons_of_neg h]

theorem specFields_of_all_nonspace {l : List Nat} (hne : l ≠ [])
    (h : ∀ x ∈ l, isAsciiSpace x = false) : specFields l = [l] := by
  cases l with
  | nil => exact absurd rfl hne
  | cons c t =>
    have hall : ∀ x ∈ c :: t, (fun b => !isAsciiSpace b) x = true := by
      intro x hx
      simp [h x hx]
    rw [specFields_cons_nonspace (h c (by simp)),
      List.takeWhile_eq_self_iff.2 hall, List.dropWhile_eq_nil_iff.2 hall]
    simp [specFields]

theorem extractSpan_self (s : List Nat) (i : Nat) : extractSpan s i i = [] := by
  rw [extractSpan]
  exact List.drop_eq_nil_of_le (by simp)

theorem extractSpan_length (s : List Nat) (i : Nat) :
    extractSpan s i s.length = s.drop i := by
  rw [extractSpan, List.take_length]

theorem drop_eq_extractSpan_append {s : List Nat} {fs i : Nat}
    (hfi : fs ≤ i) (hil : i ≤ s.length) :
    s.drop fs = extractSpan s fs i ++ s.drop i := by
  conv_lhs => rw [← List.take_append_drop i s]
  rw [List.drop_append_of_le_length (by rw [List.length_take]; omega),
    extractSpan]

theorem extractSpan_succ {s : List Nat} {fs i : Nat} (hfi : fs ≤ i)
    (h : i < s.length) :
    extractSpan s fs (i + 1) = extractSpan s fs i ++ [s[i]] := by
  rw [extractSpan, extractSpan, List.take_succ, List.getElem?_eq_getElem h]
  rw [List.drop_append_of_le_length (by rw [List.length_take]; omega)]
  rfl

theorem abfLoop_spec (s : List Nat) (fieldStart i : Nat) (a : List (List Nat))
    (hfi : fieldStart ≤ i) (hil : i ≤ s.length)
    (hrun : ∀ x ∈ extractSpan s fieldStart i, isAsciiSpace x = false)
    (hstart : fieldStart = i → (s.drop i).takeWhile isAsciiSpace = []) :
    abfLoop s fieldStart i a = a ++ specFields (s.drop fieldStart) := by
  rw [abfLoop]
  by_cases h : i < s.length
  · rw [dif_pos h]
    by_cases hsp : isAsciiSpace s[i] = false
    · rw [if_pos hsp]
      refine abfLoop_spec s fieldStart (i + 1) a (by omega) (by omega) ?_
        (fun heq => absurd heq (by omega))
      intro x hx
      rw [extractSpan_succ hfi h] at hx
      rcases List.mem_append.1 hx with hx1 | hx2
      · exact hrun x hx1
      · rw [List.mem_singleton.1 hx2]
        exact hsp
    · rw [if_neg hsp]
      have hspT : isAsciiSpace s[i] = true := by
        revert hsp
        cases isAsciiSpace s[i] <;> simp
      have hdropi : s.drop i = s[i] :: s.drop (i + 1) := List.drop_eq_getElem_cons h
      have hflt : fieldStart < i := by
        rcases Nat.lt_or_eq_of_le hfi with hlt | heq
        · exact hlt
        · exfalso
          have := hstart heq
          rw [hdropi, List.takeWhile_cons_of_pos hspT] at this
          exact List.cons_ne_nil _ _ this
      have hrec := abfLoop_spec s (skipSpaces s (i + 1)) (skipSpaces s (i + 1))
        (a ++ [extractSpan s fieldStart i]) le_rfl
        (skipSpaces_le_length s (i + 1) (by omega))
        (by
          intro x hx
          rw [extractSpan_self] at hx
          exact absurd hx (List.not_mem_nil x))
        (by
          intro _
          rw [drop_skipSpaces]
          exact takeWhile_dropWhile_nil _ _)
      rw [hrec]
      have hrunne : extractSpan s fieldStart i ≠ [] := by
        have : (extractSpan s fieldStart i).length = i - fieldStart := by
          rw [extractSpan, List.length_drop, List.length_take]
          omega
        intro hnil
        rw [hnil] at this
        simp at this
        omega
      have hdecomp := drop_eq_extractSpan_append hfi h.le
      have hspec : specFields (s.drop fieldStart) =
          extractSpan s fieldStart i :: specFields (s.drop (skipSpaces s (i + 1))) := by
        rcases hx : extractSpan s fieldStart i with _ | ⟨c, t⟩
        · exact absurd hx hrunne
        · have hc : isAsciiSpace c = false := hrun c (by rw [hx]; simp)
          have hdecomp2 : s.drop fieldStart = c :: (t ++ s.drop i) := by
            rw [hdecomp, hx]
            rfl
          rw [hdecomp2, specFields_cons_nonspace hc]
          have htall : ∀ x ∈ t, (fun b => !isAsciiSpace b) x = true := by
            intro x hxm
            have : isAsciiSpace x = false := hrun x (by rw [hx]; simp [hxm])
            simp [this]
          rw [@List.takeWhile_cons_of_pos Nat (fun b => !isAsciiSpace b) c
              (t ++ s.drop i) (by simp [hc]),
            @List.dropWhile_cons_of_pos Nat (fun b => !isAsciiSpace b) c
              (t ++ s.drop i) (by simp [hc]),
            List.takeWhile_append_of_pos htall,
            List.dropWhile_append_of_pos htall, hdropi,
            @List.takeWhile_cons_of_neg Nat (fun b => !isAsciiSpace b) s[i]
              (s.drop (i + 1)) (by simp [hspT]),
            @List.dropWhile_cons_of_neg Nat (fun b => !isAsciiSpace b) s[i]
              (s.drop (i + 1)) (by simp [hspT]),
            specFields_cons_space hspT, ← specFields_dropWhile (s.drop (i + 1)),
            ← drop_skipSpaces]
          simp
      rw [hspec]
      simp
  · rw [dif_neg h]
    have hieq : i = s.length := by omega
    by_cases hfs : fieldStart < s.length
    · rw [if_pos hfs]
      have hne : s.drop fieldStart ≠ [] := by
        rw [Ne, List.drop_eq_nil_iff]
        omega
      have hall : ∀ x ∈ s.drop fieldStart, isAsciiSpace x = false := by
        intro x hx
        refine hrun x ?_
        rw [hieq, extractSpan_length]
        exact hx
      rw [specFields_of_all_nonspace hne hall, extractSpan_length]
    · rw [if_neg hfs]
      have : s.drop fieldStart = [] := List.drop_eq_nil_of_le (by omega)
      rw [this]
      simp [specFields]
termination_by s.length - i
decreasing_by
  · omega
  · simp [skipSpaces]; omega

theorem specFields_mem_ne_nil : ∀ (l : List Nat), ∀ f ∈ specFields l, f ≠ []
  | [] => by simp [specFields]
  | c :: t => by
    by_cases h : isAsciiSpace c
    · rw [specFields_cons_space h]
      exact specFields_mem_ne_nil t
    · have h2 : isAsciiSpace c = false := by
        revert h
        cases isAsciiSpace c <;> simp
      rw [specFields_cons_nonspace h2]
      intro f hf
      rcases List.mem_cons.1 hf with rfl | hf2
      · rw [@List.takeWhile_cons_of_pos Nat (fun b => !isAsciiSpace b) c t
          (by simp [h2])]
        exact List.cons_ne_nil _ _
      · rw [@List.dropWhile_cons_of_pos Nat (fun b => !isAsciiSpace b) c t
          (by simp [h2])] at hf2
        exact specFields_mem_ne_nil (t.dropWhile (fun b => !isAsciiSpace b)) f hf2
termination_by l => l.length
decreasing_by
  · simp only [List.length_cons]
    omega
  · simp only [List.length_cons]
    exact Nat.lt_succ_of_le (List.dropWhile_sublist _).length_le

/-- C4: `asciiByteFields` (and hence `BufferScanner.Fields`) returns
exactly the ordered sequence of maximal runs of non-whitespace bytes
(whitespace being tab, newline, vertical tab, form feed, carriage return
and space, per `isAsciiSpace`), appended to the reused output container;
no field is empty, and empty input yields the container unchanged (an
empty sequence for `Fields`, since `specFields [] = []`). -/
theorem asciiByteFields_eq_specFields (s : List Nat) (a : List (List Nat)) :
    asciiByteFields s a = a ++ specFields s ∧ Fields s = specFields s ∧
      ∀ f ∈ Fields s, f ≠ [] := by
  have key : ∀ a' : List (List Nat), asciiByteFields s a' = a' ++ specFields s := by
    intro a'
    rw [asciiByteFields]
    rw [abfLoop_spec s (skipSpaces s 0) (skipSpaces s 0) a' le_rfl
      (skipSpaces_le_length s 0 (Nat.zero_le _))
      (by
        intro x hx
        rw [extractSpan_self] at hx
        exact absurd hx (List.not_mem_nil x))
      (by
        intro _
        rw [drop_skipSpaces]
        exact takeWhile_dropWhile_nil _ _)]
    rw [drop_skipSpaces, List.drop_zero, specFields_dropWhile]
  have hfields : Fields s = specFields s := by
    rw [Fields, key []]
    exact List.nil_append _
  exact ⟨key a, hfields, fun f hf => specFields_mem_ne_nil s f (hfields ▸ hf)⟩

/-! ## The fast unsigned parser (C5) -/

theorem decimal_foldl_ge (b : List Nat) :
    ∀ rv : Nat, rv ≤ b.foldl (fun a c => a * 10 + (c - 48)) rv := by
  induction b with
  | nil => intro rv; exact Nat.le_refl rv
  | cons c t ih =>
    intro rv
    rw [List.foldl_cons]
    exact Nat.le_trans (by omega) (ih (rv * 10 + (c - 48)))

theorem naiveAtoi_foldl_eq (b : List Nat) :
    ∀ rv : Nat, (∀ c ∈ b, 48 ≤ c ∧ c ≤ 57) →
      b.foldl (fun a c => a * 10 + (c - 48)) rv < 2 ^ 64 →
      b.foldl (fun rv c => (rv * 10 % 2 ^ 64 + (c + 208) % 256) % 2 ^ 64) rv =
        b.foldl (fun a c => a * 10 + (c - 48)) rv := by
  induction b with
  | nil => intro rv _ _; rfl
  | cons c t ih =>
    intro rv hd hlt
    rw [List.foldl_cons] at hlt ⊢
    rw [List.foldl_cons]
    obtain ⟨hc1, hc2⟩ := hd c (by simp)
    have hge : rv * 10 + (c - 48) ≤
        t.foldl (fun a c => a * 10 + (c - 48)) (rv * 10 + (c - 48)) :=
      decimal_foldl_ge t _
    have hsum : rv * 10 + (c - 48) < 2 ^ 64 := Nat.lt_of_le_of_lt hge hlt
    have hmod1 : (c + 208) % 256 = c - 48 := by omega
    have hmod2 : rv * 10 % 2 ^ 64 = rv * 10 := Nat.mod_eq_of_lt (by omega)
    have hmod3 : (rv * 10 + (c - 48)) % 2 ^ 64 = rv * 10 + (c - 48) :=
      Nat.mod_eq_of_lt hsum
    rw [hmod1, hmod2, hmod3]
    exact ih _ (fun x hx => hd x (by simp [hx])) hlt

/-- C5: on a span of ASCII digits whose decimal value fits in 64 bits,
`naiveAtoi` returns exactly that decimal value, i.e. agrees with a
standard validating unsigned-decimal parser (`decimalValue`). -/
theorem naiveAtoi_eq_decimalValue (b : List Nat)
    (hd : ∀ c ∈ b, 48 ≤ c ∧ c ≤ 57) (hv : decimalValue b < 2 ^ 64) :
    naiveAtoi b = decimalValue b := by
  rw [naiveAtoi, decimalValue]
  rw [decimalValue] at hv
  exact naiveAtoi_foldl_eq b 0 hd hv

/-- Witness for C5 at the digit string "8475589" (the benchmark input of
`scanner_test.go`). -/
theorem naiveAtoi_eq_decimalValue_witness :
    (∀ c ∈ [56, 52, 55, 53, 53, 56, 57], 48 ≤ c ∧ c ≤ 57) ∧
      decimalValue [56, 52, 55, 53, 53, 56, 57] < 2 ^ 64 ∧
      naiveAtoi [56, 52, 55, 53, 53, 56, 57] =
        decimalValue [56, 52, 55, 53, 53, 56, 57] :=
  ⟨by decide, by decide, naiveAtoi_eq_decimalValue _ (by decide) (by decide)⟩

/-! ## Meter update semantics (C1, C8, C9, C10) -/

/-- C1 counterexample: the claim says that a counter holding 100 which is
sampled with `SampleAt 2 50` ends with `value = 0`; in the code the value
ends up `50` (`SampleAt` stores the sample after `counterSet` runs), so the
claim is false, while `resetTime = 2` does hold. -/
theorem counter_reset_value_not_zeroed :
    (((DefineCounter mdTest 0).SampleAt 1 100).SampleAt 2 50).r = 2 ∧
      (((DefineCounter mdTest 0).SampleAt 1 100).SampleAt 2 50).v = 50 ∧
      ¬(((DefineCounter mdTest 0).SampleAt 1 100).SampleAt 2 50).v = 0 := by
  refine ⟨rfl, rfl, ?_⟩
  decide

/-- C1 (amended): for a counter meter, `SampleAt t v` with `v` below the
stored value updates `resetTime` to `t`, and then stores the sample: the
meter's value is `v` (not `0`) and its sample time is `t`. -/
theorem counter_reset_sets_resetTime_and_stores_sample (m : scalarMeter)
    (t v : Nat) (hf : m.f = setFuncKind.counter) (hlt : v < m.v) :
    (m.SampleAt t v).r = t ∧ (m.SampleAt t v).v = v ∧ (m.SampleAt t v).t = t := by
  refine ⟨?_, rfl, rfl⟩
  show (applySetFunc m.f m t v).r = t
  rw [hf]
  show (counterSet m t v).r = t
  rw [counterSet, scalarMeter.Value]
  rw [if_pos hlt]
  rfl

/-- Witness for C1 (amended): the counter of the counterexample. -/
theorem counter_reset_witness :
    ((DefineCounter mdTest 0).SampleAt 1 100).f = setFuncKind.counter ∧
      50 < ((DefineCounter mdTest 0).SampleAt 1 100).v ∧
      ((((DefineCounter mdTest 0).SampleAt 1 100).SampleAt 2 50).r = 2 ∧
        (((DefineCounter mdTest 0).SampleAt 1 100).SampleAt 2 50).v = 50 ∧
        (((DefineCounter mdTest 0).SampleAt 1 100).SampleAt 2 50).t = 2) :=
  ⟨by decide, by decide,
    counter_reset_sets_resetTime_and_stores_sample _ 2 50 (by decide) (by decide)⟩

/-- C8: for a gauge meter, `SampleAt t v` unconditionally stores value `v`
and sample time `t` (also when `v` is below the stored value) and leaves
the reset time unchanged. -/
theorem gauge_sample_passthrough (m : scalarMeter) (t v : Nat)
    (hf : m.f = setFuncKind.gauge) :
    (m.SampleAt t v).v = v ∧ (m.SampleAt t v).t = t ∧
      (m.SampleAt t v).r = m.r := by
  refine ⟨rfl, rfl, ?_⟩
  show (applySetFunc m.f m t v).r = m.r
  rw [hf]
  rfl

/-- Witness for C8: a gauge at value 100 sampled down to 50 reports 50
with its reset time untouched. -/
theorem gauge_sample_witness :
    gaugeTest.f = setFuncKind.gauge ∧
      ((gaugeTest.SampleAt 2 50).v = 50 ∧ (gaugeTest.SampleAt 2 50).t = 2 ∧
        (gaugeTest.SampleAt 2 50).r = gaugeTest.r) :=
  ⟨by decide, gauge_sample_passthrough gaugeTest 2 50 (by decide)⟩

/-- C9: for every scalar meter (counter or gauge alike), `Value` after
`SampleAt t v` returns exactly `(t, v)`: the sample is stored last,
overwriting whatever the discipline's set function (including the
counter-reset path, which zeroes the value first) wrote. -/
theorem value_after_sampleAt (m : scalarMeter) (t v : Nat) :
    (m.SampleAt t v).Value = (t, v) := rfl

/-- C10: `Origin.RegisterFunction` is a pure no-op: it returns the meter
state unchanged and its result does not depend on the registered function
(`f` is never invoked — replacing it by any `g` gives the same result). -/
theorem registerFunction_is_noop {α : Type} (o : Origin) (f g : α → α)
    (ms : List scalarMeter) :
    Origin.RegisterFunction o f ms = ms ∧
      Origin.RegisterFunction o f ms = Origin.RegisterFunction o g ms :=
  ⟨rfl, rfl⟩

/-! ## Scan ordering and skipping (C3, C6, C7, C2) -/

theorem findMatch_pos_le {name : List Nat} :
    ∀ {lines : List (List Nat)} {pos k : Nat} {args rest : List (List Nat)},
      findMatch name lines pos = some (k, args, rest) → pos ≤ k := by
  intro lines
  induction lines with
  | nil =>
    intro pos k args rest h
    rw [findMatch] at h
    exact absurd h (Option.noConfusion)
  | cons l t ih =>
    intro pos k args rest h
    rw [findMatch] at h
    split at h
    · split at h
      · have h3 : pos = k := congrArg (fun x => x.1) (Option.some.inj h)
        omega
      · exact Nat.le_of_succ_le (ih h)
    · exact Nat.le_of_succ_le (ih h)

theorem scanFrom_length :
    ∀ (ns lines : List (List Nat)) (pos : Nat),
      (scanFrom ns lines pos).length = ns.length := by
  intro ns
  induction ns with
  | nil => intro lines pos; rfl
  | cons n t ih =>
    intro lines pos
    rw [scanFrom]
    rcases hm : findMatch n lines pos with - | ⟨k, args, rest⟩
    · simp [ih]
    · simp [ih]

theorem scanFrom_nil_lines :
    ∀ (ns : List (List Nat)) (pos i : Nat), i < ns.length →
      (scanFrom ns [] pos)[i]? = some none := by
  intro ns
  induction ns with
  | nil =>
    intro pos i hi
    exact absurd hi (by simp)
  | cons n t ih =>
    intro pos i hi
    have hm : findMatch n ([] : List (List Nat)) pos = none := by rw [findMatch]
    simp only [scanFrom, hm]
    cases i with
    | zero => exact List.getElem?_cons_zero
    | succ j =>
      rw [List.getElem?_cons_succ]
      exact ih pos j (by simpa using hi)

theorem scanFrom_index_lb :
    ∀ (ns lines : List (List Nat)) (pos i k : Nat) (args : List (List Nat)),
      (scanFrom ns lines pos)[i]? = some (some (k, args)) → pos ≤ k := by
  intro ns
  induction ns with
  | nil =>
    intro lines pos i k args h
    rw [scanFrom] at h
    simp at h
  | cons n t ih =>
    intro lines pos i k args h
    rw [scanFrom] at h
    rcases hm : findMatch n lines pos with _ | ⟨k0, args0, rest⟩ <;>
      simp only [hm] at h
    · cases i with
      | zero =>
        rw [List.getElem?_cons_zero] at h
        simp at h
      | succ j =>
        rw [List.getElem?_cons_succ] at h
        exact ih [] pos j k args h
    · cases i with
      | zero =>
        rw [List.getElem?_cons_zero] at h
        simp at h
        obtain ⟨h1, -⟩ := h
        have hk0 : pos ≤ k0 := findMatch_pos_le hm
        omega
      | succ j =>
        rw [List.getElem?_cons_succ] at h
        have hk0 : pos ≤ k0 := findMatch_pos_le hm
        have := ih rest (k0 + 1) j k args h
        omega

theorem scanFrom_strict_mono :
    ∀ (ns lines : List (List Nat)) (pos i j ki kj : Nat)
      (ai aj : List (List Nat)), i < j →
      (scanFrom ns lines pos)[i]? = some (some (ki, ai)) →
      (scanFrom ns lines pos)[j]? = some (some (kj, aj)) → ki < kj := by
  intro ns
  induction ns with
  | nil =>
    intro lines pos i j ki kj ai aj hij hi hj
    rw [scanFrom] at hi
    simp at hi
  | cons n t ih =>
    intro lines pos i j ki kj ai aj hij hi hj
    rw [scanFrom] at hi hj
    rcases hm : findMatch n lines pos with _ | ⟨k0, args0, rest⟩ <;>
      simp only [hm] at hi hj
    · cases i with
      | zero =>
        rw [List.getElem?_cons_zero] at hi
        simp at hi
      | succ i' =>
        cases j with
        | zero => omega
        | succ j' =>
          rw [List.getElem?_cons_succ] at hi hj
          exact ih [] pos i' j' ki kj ai aj (by omega) hi hj
    · cases i with
      | zero =>
        rw [List.getElem?_cons_zero] at hi
        simp at hi
        obtain ⟨hk1, -⟩ := hi
        cases j with
        | zero => omega
        | succ j' =>
          rw [List.getElem?_cons_succ] at hj
          have := scanFrom_index_lb t rest (k0 + 1) j' kj aj hj
          omega
      | succ i' =>
        cases j with
        | zero => omega
        | succ j' =>
          rw [List.getElem?_cons_succ] at hi hj
          exact ih rest (k0 + 1) i' j' ki kj ai aj (by omega) hi hj

/-- C3: registrations are matched in exactly the supplied order in a
single forward pass: whenever registration `i` fires on line `ki` and a
later registration `j > i` fires on line `kj`, then `kj > ki` — a later
registration never matches a line at or before the line matched by an
earlier one. -/
theorem scan_matches_in_supplied_order (lineBufCap : Nat)
    (names : List (List Nat)) (b : List Nat) (i j ki kj : Nat)
    (ai aj : List (List Nat)) (hij : i < j)
    (hi : (Scan lineBufCap names b)[i]? = some (some (ki, ai)))
    (hj : (Scan lineBufCap names b)[j]? = some (some (kj, aj))) : ki < kj := by
  rw [Scan] at hi hj
  exact scanFrom_strict_mono names _ 0 i j ki kj ai aj hij hi hj

/-- Witness for C3: registrations `["A", "B"]` on input `"A 1\nB 2\n"`:
`A` fires on line 0 with fields `["1"]`, `B` fires on line 1 with fields
`["2"]`, and `0 < 1`. -/
theorem scan_matches_in_supplied_order_witness :
    (0 : Nat) < 1 ∧
      (Scan 16 [[65], [66]] [65, 32, 49, 10, 66, 32, 50, 10])[0]? =
        some (some (0, [[49]])) ∧
      (Scan 16 [[65], [66]] [65, 32, 49, 10, 66, 32, 50, 10])[1]? =
        some (some (1, [[50]])) ∧
      (0 : Nat) < 1 :=
  ⟨by decide,
    by simp [Scan, scanFrom, findMatch, Fields, asciiByteFields, abfLoop,
      skipSpaces, extractSpan, isAsciiSpace, readLines, dropCR],
    by simp [Scan, scanFrom, findMatch, Fields, asciiByteFields, abfLoop,
      skipSpaces, extractSpan, isAsciiSpace, readLines, dropCR],
    scan_matches_in_supplied_order 16 [[65], [66]]
      [65, 32, 49, 10, 66, 32, 50, 10] 0 1 0 1 [[49]] [[50]] (by decide)
      (by simp [Scan, scanFrom, findMatch, Fields, asciiByteFields, abfLoop,
        skipSpaces, extractSpan, isAsciiSpace, readLines, dropCR])
      (by simp [Scan, scanFrom, findMatch, Fields, asciiByteFields, abfLoop,
        skipSpaces, extractSpan, isAsciiSpace, readLines, dropCR])⟩

theorem scanFrom_none_tail :
    ∀ (ns lines : List (List Nat)) (pos i j : Nat),
      (scanFrom ns lines pos)[i]? = some none → i ≤ j → j < ns.length →
      (scanFrom ns lines pos)[j]? = some none := by
  intro ns
  induction ns with
  | nil =>
    intro lines pos i j hi hij hj
    exact absurd hj (by simp)
  | cons n t ih =>
    intro lines pos i j hi hij hj
    rw [scanFrom] at hi ⊢
    rcases hm : findMatch n lines pos with _ | ⟨k0, args0, rest⟩ <;>
      simp only [hm] at hi ⊢
    · cases j with
      | zero => exact List.getElem?_cons_zero
      | succ j' =>
        rw [List.getElem?_cons_succ]
        exact scanFrom_nil_lines t pos j' (by simpa using hj)
    · cases i with
      | zero =>
        rw [List.getElem?_cons_zero] at hi
        simp at hi
      | succ i' =>
        cases j with
        | zero => omega
        | succ j' =>
          rw [List.getElem?_cons_succ] at hi ⊢
          exact ih rest (k0 + 1) i' j' hi (by omega) (by simpa using hj)

/-- C6: if the lines are exhausted before a match for registration `i` is
found (outcome `some none`), then neither that registration's callback nor
any later registration's callback fires in this scan (their outcomes are
also `some none`), and the scan still terminates normally, producing an
outcome for every registration (no error is raised: `Scan` is total and
returns no error value). -/
theorem scan_exhausted_skips_rest (lineBufCap : Nat)
    (names : List (List Nat)) (b : List Nat) (i j : Nat)
    (hi : (Scan lineBufCap names b)[i]? = some none)
    (hij : i ≤ j) (hj : j < names.length) :
    (Scan lineBufCap names b).length = names.length ∧
      (Scan lineBufCap names b)[j]? = some none := by
  rw [Scan] at hi ⊢
  exact ⟨scanFrom_length names _ 0, scanFrom_none_tail names _ 0 i j hi hij hj⟩

/-- Witness for C6: registrations `["A", "B"]` on input `"A 1\n"`: `B`'s
outcome (index 1) is `some none`, the scan produces 2 outcomes. -/
theorem scan_exhausted_skips_rest_witness :
    (Scan 16 [[65], [66]] [65, 32, 49, 10])[1]? = some none ∧
      (1 : Nat) ≤ 1 ∧ 1 < ([[65], [66]] : List (List Nat)).length ∧
      ((Scan 16 [[65], [66]] [65, 32, 49, 10]).length =
          ([[65], [66]] : List (List Nat)).length ∧
        (Scan 16 [[65], [66]] [65, 32, 49, 10])[1]? = some none) :=
  ⟨by simp [Scan, scanFrom, findMatch, Fields, asciiByteFields, abfLoop,
      skipSpaces, extractSpan, isAsciiSpace, readLines, dropCR],
    by decide, by decide,
    scan_exhausted_skips_rest 16 [[65], [66]] [65, 32, 49, 10] 1 1
      (by simp [Scan, scanFrom, findMatch, Fields, asciiByteFields, abfLoop,
        skipSpaces, extractSpan, isAsciiSpace, readLines, dropCR])
      (by decide) (by decide)⟩

/-- C7: a line with fewer than two fields is skipped and can never be
matched, whatever the current registration's name (even one equal to the
line's only field) and whatever registrations follow: scanning simply
proceeds with the next line. -/
theorem scanFrom_nil_pos_irrelevant :
    ∀ (ns : List (List Nat)) (p q : Nat), scanFrom ns [] p = scanFrom ns [] q := by
  intro ns
  induction ns with
  | nil => intro p q; rfl
  | cons n t ih =>
    intro p q
    have hp : findMatch n ([] : List (List Nat)) p = none := by rw [findMatch]
    have hq : findMatch n ([] : List (List Nat)) q = none := by rw [findMatch]
    simp only [scanFrom, hp, hq]
    rw [ih p q]

theorem short_line_never_matches (l : List Nat)
    (h : (Fields l).length < 2) (names rest : List (List Nat)) (pos : Nat) :
    scanFrom names (l :: rest) pos = scanFrom names rest (pos + 1) := by
  have hF : ∀ n : List Nat,
      findMatch n (l :: rest) pos = findMatch n rest (pos + 1) := by
    intro n
    rw [findMatch]
    split
    · next f0 f1 fs heq =>
      rw [heq] at h
      simp at h
      exact absurd h (by omega)
    · rfl
  cases names with
  | nil => rfl
  | cons n ns =>
    rw [scanFrom, hF n]
    conv_rhs => rw [scanFrom]
    rcases hm2 : findMatch n rest (pos + 1) with _ | ⟨k, args, rest2⟩
    · simp only [hm2]
      rw [scanFrom_nil_pos_irrelevant ns pos (pos + 1)]
    · simp only [hm2]

/-- Witness for C7: the single-field line `"foo"` is skipped even though
the registration's name is `"foo"` itself: scanning `["foo"]` against the
sole line `"foo"` gives the same (empty-lines) outcome as starting past
it. -/
theorem short_line_never_matches_witness :
    (Fields [102, 111, 111]).length < 2 ∧
      scanFrom [[102, 111, 111]] [[102, 111, 111]] 0 =
        scanFrom [[102, 111, 111]] [] 1 :=
  ⟨by simp [Fields, asciiByteFields, abfLoop, skipSpaces, extractSpan,
      isAsciiSpace],
    short_line_never_matches [102, 111, 111]
      (by simp [Fields, asciiByteFields, abfLoop, skipSpaces, extractSpan,
        isAsciiSpace])
      [[102, 111, 111]] [] 0⟩

/-- C2: the claim that a too-long line surfaces an explicit error to the
caller fails on the code: on the buffer `"aaaaaaaa\nB 2\n"` with line
buffer capacity 4, the underlying `bufio` scanner stops with `ErrTooLong`
(the `readLines` error flag is `true`), but `Scan` — whose Go signature
returns nothing and which never calls `scanner.Err()` — reports nothing:
the scan silently ends and the callback registered for `"B"` is not
invoked even though a well-formed `"B 2"` line follows the oversized
line. -/
theorem capacity_fault_swallowed :
    (readLines 4 [] [97, 97, 97, 97, 97, 97, 97, 97, 10, 66, 32, 50, 10]).2 =
        true ∧
      Scan 4 [[66]] [97, 97, 97, 97, 97, 97, 97, 97, 10, 66, 32, 50, 10] =
        [none] := by
  constructor
  · decide
  · decide

/-- Witness for C4 at the span `" a b"` (leading space, two one-byte
fields). -/
theorem asciiByteFields_eq_specFields_witness :
    asciiByteFields [32, 97, 32, 98] [] = [] ++ specFields [32, 97, 32, 98] ∧
      Fields [32, 97, 32, 98] = specFields [32, 97, 32, 98] ∧
      ∀ f ∈ Fields [32, 97, 32, 98], f ≠ [] :=
  asciiByteFields_eq_specFields [32, 97, 32, 98] []
